import Mathlib

set_option maxRecDepth 8000

/-!
Verification of the rustbox probe corpus: shallow embeddings of the C/C++
probe and fixture programs, with theorems about their behaviour.

Conventions used throughout:
- machine integers are modelled as `Int`/`Nat` with explicit wrap-around
  (`% 2^w`) where the source can overflow;
- external effects (malloc, fork, fopen, socket, connect, the clock)
  are modelled as oracle parameters, so every run function is total and
  executable;
- stdout is modelled either as a list of `String` lines or as a list of
  structured events, one constructor per `printf`/`cout` site.
-/

namespace Rustbox

/-! ## Longest increasing subsequence fixtures

Source: `src/rustbox/src/tests/languages/test_files/lang_cpp/test_3_lis.cpp`
(`longest_increasing_subsequence`, `main`) and
`src/rustbox/tests/languages/lang_cpp/test_3_lis.cpp` (`lis`, `main`).
-/

/-- `Bool` test that a list of integers is strictly increasing
(the ordinary notion of a strictly increasing sequence). -/
def strictIncr : List Int → Bool
  | [] => true
  | [_] => true
  | a :: b :: t => decide (a < b) && strictIncr (b :: t)

/-- Maximum of a list of naturals (0 for the empty list). -/
def maxFold (l : List Nat) : Nat := l.foldr Nat.max 0

/-- Specification value: the length of the longest strictly increasing
subsequence of `l` (maximum of the lengths of all strictly increasing
sublists; the empty sublist gives 0). -/
def lisSpec (l : List Int) : Nat :=
  maxFold ((l.sublists.filter strictIncr).map List.length)

/-- The length of the longest strictly increasing sublist of `p` that can be
extended by `x` (i.e. of those `s` with `s ++ [x]` strictly increasing). -/
def endSpecAux (p : List Int) (x : Int) : Nat :=
  maxFold ((p.sublists.filter (fun s => strictIncr (s ++ [x]))).map List.length)

/-- Specification value for the DP cell: the length of the longest strictly
increasing subsequence of `p ++ [x]` that ends with that final `x`. -/
def endSpec (p : List Int) (x : Int) : Nat := endSpecAux p x + 1

/-- `Bool` test that every element of `s` (in particular its last) is a
legal predecessor of `x` in a strictly increasing chain: true iff `s` is
empty or its last element is `< x`. -/
def lastLt (s : List Int) (x : Int) : Bool :=
  match s.getLast? with
  | none => true
  | some y => decide (y < x)

/-- Inner `for (j = 0; j < i; j++)` loop of `longest_increasing_subsequence`:
starting from `dp[i] = 1`, fold over the already-computed `(arr[j], dp[j])`
pairs, doing `if (arr[j] < arr[i]) dp[i] = max(dp[i], dp[j] + 1)`. -/
def lisInner (x : Int) (done : List (Int × Nat)) : Nat :=
  done.foldl (fun d p => if p.1 < x then Nat.max d (p.2 + 1) else d) 1

/-- Inner loop of the `lis` variant:
`if (arr[i] > arr[j] && dp[i] < dp[j] + 1) dp[i] = dp[j] + 1`. -/
def lisInner2 (x : Int) (done : List (Int × Nat)) : Nat :=
  done.foldl (fun d p => if decide (x > p.1) && decide (d < p.2 + 1) then p.2 + 1 else d) 1

/-- Outer `for (i = 1; i < n; i++)` loop of `longest_increasing_subsequence`:
`done` holds the `(arr[j], dp[j])` pairs for the processed prefix.
(`dp[0] = 1` is the `i = 0` instance: `lisInner x [] = 1`.) -/
def dpPass (done : List (Int × Nat)) : List Int → List (Int × Nat)
  | [] => done
  | x :: rest => dpPass (done ++ [(x, lisInner x done)]) rest

/-- Outer loop of the `lis` variant. -/
def dpPass2 (done : List (Int × Nat)) : List Int → List (Int × Nat)
  | [] => done
  | x :: rest => dpPass2 (done ++ [(x, lisInner2 x done)]) rest

/-- `*max_element(dp.begin(), dp.end())`: `none` on an empty range (where the
C++ call would dereference `end()`, which is undefined). -/
def maxElement : List Nat → Option Nat
  | [] => none
  | x :: xs => some (xs.foldl Nat.max x)

/-- `longest_increasing_subsequence` from
`src/rustbox/src/tests/languages/test_files/lang_cpp/test_3_lis.cpp`:
guard `if (arr.empty()) return 0;`, then the DP, then `*max_element`. -/
def longest_increasing_subsequence (arr : List Int) : Nat :=
  if arr.isEmpty then 0
  else (maxElement ((dpPass [] arr).map Prod.snd)).getD 0

/-- `lis` from `src/rustbox/tests/languages/lang_cpp/test_3_lis.cpp`:
no emptiness guard; `*max_element` over the dp array, undefined (`none`)
when the input vector is empty. -/
def lis (arr : List Int) : Option Nat :=
  maxElement ((dpPass2 [] arr).map Prod.snd)

/-- The semantic counterpart of the DP pair list: the `(value, dp)` pairs
for the elements of `rest`, processed after the prefix `pref`, with each
dp cell given its specification value `endSpec`. -/
def specPairsAux (pref : List Int) : List Int → List (Int × Nat)
  | [] => []
  | x :: rest => (x, endSpec pref x) :: specPairsAux (pref ++ [x]) rest

/-- The semantic DP pair list of a whole array. -/
def specPairs (p : List Int) : List (Int × Nat) := specPairsAux [] p

/-- The hard-coded array of the LIS fixture `main`:
`vector<int> arr = {10, 9, 2, 5, 3, 7, 101, 18};`. -/
def test3_arr : List Int := [10, 9, 2, 5, 3, 7, 101, 18]

/-- `main` of the `src/rustbox/src/tests/...` LIS fixture: the list of stdout
lines (`cout << "LIS length: " << result << endl;`) and the exit status
(`return 0;`). -/
def test3_main : List String × Nat :=
  (["LIS length: " ++ toString (longest_increasing_subsequence test3_arr)], 0)

/-! ## Star-pattern fixtures

Source: `src/rustbox/src/tests/languages/test_files/lang_cpp/test_2_star.cpp`
(`print_star_pattern`) and `src/rustbox/tests/languages/lang_cpp/test_2_star.cpp`
(`printStarPattern`). Output is modelled as a list of characters.
-/

/-- Whitespace for output normalization: the space and newline characters,
the only non-`*` characters either fixture prints. -/
def isWS (c : Char) : Bool := c == ' ' || c == '\n'

/-- Body of variant A's `for (i = 1; i <= N; i++)` loop:
`if (i > 1) cout << " ";` then `2 * i - 1` stars. -/
def rowA (i : Nat) : List Char :=
  (if 1 < i then [' '] else []) ++ List.replicate (2 * i - 1) '*'

/-- Variant A's outer loop after `n` iterations (`i` ran from 1 to `n`). -/
def loopA : Nat → List Char
  | 0 => []
  | n + 1 => loopA n ++ rowA (n + 1)

/-- `print_star_pattern(N)`: the loop's output followed by `endl`. -/
def print_star_pattern (N : Nat) : List Char := loopA N ++ ['\n']

/-- Body of variant B's loop: `2 * i - 1` stars then `cout << " ";`. -/
def rowB (i : Nat) : List Char := List.replicate (2 * i - 1) '*' ++ [' ']

/-- Variant B's outer loop after `n` iterations. -/
def loopB : Nat → List Char
  | 0 => []
  | n + 1 => loopB n ++ rowB (n + 1)

/-- `printStarPattern(N)`: the loop's output followed by `endl`. -/
def printStarPattern (N : Nat) : List Char := loopB N ++ ['\n']

/-- Whitespace normalization: the maximal whitespace-free chunks of the
output, in order (split on whitespace, drop empty chunks). -/
def tokens (l : List Char) : List (List Char) :=
  (l.splitOnP isWS).filter (fun t => !t.isEmpty)

/-- The expected star groups for input `N`: the `k`-th group (0-based)
is `2 * (k + 1) - 1 = 2 * k + 1` stars. -/
def starGroups (N : Nat) : List (List Char) :=
  (List.range N).map (fun k => List.replicate (2 * k + 1) '*')

/-! ## Memory-limit-exceeded fixtures

Source: `src/rustbox/src/tests/languages/test_files/lang_cpp/test_5_mle.cpp`
and `src/rustbox/tests/languages/lang_cpp/test_5_mle.cpp`.
Allocation success is an oracle keyed by the requested element count
(each iteration's `vector` construction plus, in variant 1, the
`push_back` copy, is one oracle consultation); `int` arithmetic wraps at
2^31, `size_t` at 2^64.  Results are `none` when the modelling fuel runs
out, otherwise `some` of (stdout lines, exit status, whether `bad_alloc`
was caught).
-/

/-- The message both fixtures start their failure line with. -/
def memFailMsg : String := "Memory allocation failed"

/-- Two's-complement wrap of an integer to signed 32 bits. -/
def wrap32 (x : Int) : Int := (x + 2 ^ 31) % 2 ^ 32 - 2 ^ 31

/-- Variant 1 (`src/rustbox/src/tests/.../test_5_mle.cpp`) `main` loop:
`int size = 1;` then repeatedly allocate `vector<int> arr(size, 0)` and
`push_back` it; on success `size *= 2` (signed 32-bit) and
`if (size <= 0) break;`; a thrown `bad_alloc` is caught, printing
`"Memory allocation failed"`, and `main` falls through to `return 0;`. -/
def mle1Run (alloc : Int → Bool) : Nat → Int → Option (List String × Nat × Bool)
  | 0, _ => none
  | f + 1, size =>
    if alloc size then
      let size2 := wrap32 (2 * size)
      if size2 ≤ 0 then some ([], 0, false)
      else mle1Run alloc f size2
    else some ([memFailMsg], 0, true)

/-- Variant 2 (`src/rustbox/tests/.../test_5_mle.cpp`) `main` loop:
`size_t size = 1;`, `while (1)` allocate `vector<int> arr(size)`; on
success `size *= 2` (unsigned 64-bit); a thrown `bad_alloc` is caught,
printing `"Memory allocation failed at size = " << size`, then `break`
and `return 0;`. -/
def mle2Run (alloc : Nat → Bool) : Nat → Nat → Option (List String × Nat × Bool)
  | 0, _ => none
  | f + 1, size =>
    if alloc size then mle2Run alloc f (size * 2 % 2 ^ 64)
    else some (["Memory allocation failed at size = " ++ toString size], 0, true)

/-! ## timeout.c

Source: `src/test_programs/timeout.c`.  The clock is an oracle
`time : Nat → Int` giving `time(NULL)` at the `n`-th loop iteration.
-/

/-- State of `infinite_loop_test`'s `while (1)` loop:
`counter`, `last_print`, and the number of status lines printed. -/
structure ILSt where
  counter : Nat
  lastPrint : Int
  printed : Nat
  deriving DecidableEq

/-- One iteration of the `while (1)` body of `infinite_loop_test`:
`counter++`, and print/update `last_print` when a second has elapsed.
The right summand is the function-return channel; the body contains no
`break` or `return`, so it always steps to `Sum.inl`. -/
def ilBody (time : Nat → Int) (n : Nat) (s : ILSt) : ILSt ⊕ (List String × Nat) :=
  if 1 ≤ time n - s.lastPrint then Sum.inl ⟨s.counter + 1, time n, s.printed + 1⟩
  else Sum.inl ⟨s.counter + 1, s.lastPrint, s.printed⟩

/-- Run up to `fuel` iterations of `infinite_loop_test`'s loop starting at
iteration `n`; `Sum.inr` would be an actual return from the function. -/
def ilRun (time : Nat → Int) : Nat → Nat → ILSt → ILSt ⊕ (List String × Nat)
  | 0, _, s => Sum.inl s
  | f + 1, n, s =>
    match ilBody time n s with
    | Sum.inl s2 => ilRun time f (n + 1) s2
    | Sum.inr r => Sum.inr r

/-- The sleeps performed by `test_timeouts`, in order: `sleep(2)`,
`sleep(5)`, then the `for (int i = 1; i <= 30; i++)` loop's `sleep(1)`s. -/
def test_timeouts_sleeps : List Nat :=
  ([2] ++ [5]) ++ (List.range 30).foldl (fun acc _ => acc ++ [1]) []

/-- `argc > 1 && strcmp(argv[1], "infinite") == 0`, with `args` the argument
vector after the program name. -/
def timeout_infinite_mode (args : List String) : Bool :=
  match args with
  | a :: _ => a == "infinite"
  | [] => false

/-- `main` of timeout.c, observed through its sleeps: in infinite mode run
the loop for `fuel` iterations (`none` = still looping, no return);
otherwise `test_timeouts` runs its fixed sleep sequence and `main`
returns 0. -/
def timeout_main (args : List String) (time : Nat → Int) (fuel : Nat) :
    Option (List Nat × Nat) :=
  if timeout_infinite_mode args then
    match ilRun time fuel 0 ⟨0, time 0, 0⟩ with
    | Sum.inl _ => none
    | Sum.inr _ => some ([], 0)
  else some (test_timeouts_sleeps, 0)

/-! ## memory.c

Source: `src/test_programs/memory.c`.  `malloc` success is an oracle keyed
by the loop index `i`.
-/

/-- `#define MB (1024 * 1024)` -/
def MB : Nat := 1024 * 1024

/-- `size_t chunk_size = 5 * MB;` -/
def chunk_size : Nat := 5 * MB

/-- The `for (int i = 0; i < 200; i++)` progressive-allocation loop of
memory.c's `main`, from state (`rem` iterations left, index `i`,
`total_allocated = total`); returns the successive values of
`total_allocated` after each successful chunk.  A `NULL` malloc prints
and `break`s; after a successful chunk
`if (total_allocated > 500 * MB) break;`. -/
def memLoop (alloc : Nat → Bool) : Nat → Nat → Nat → List Nat
  | 0, _, _ => []
  | rem + 1, i, total =>
    if alloc i then
      (total + chunk_size) ::
        (if 500 * MB < total + chunk_size then []
         else memLoop alloc rem (i + 1) (total + chunk_size))
    else []

/-- The whole progressive-allocation loop: 200 iterations from
`i = 0`, `total_allocated = 0`. -/
def memRun (alloc : Nat → Bool) : List Nat := memLoop alloc 200 0 0

/-! ## fork.c

Source: `src/test_programs/fork.c`, the multi-fork loop of `main`
(`for (int i = 0; i < max_processes; i++)` with `max_processes = 50`),
seen from the parent process: each child only prints and exits.
`fork` success is an oracle keyed by the loop index.
-/

/-- Result of the multi-fork loop: the outcome of each fork attempt in
order, the indices written to the `children` array
(`children[created_count] = pid`), and the final `created_count`. -/
structure ForkRes where
  attempts : List Bool
  writes : List Nat
  created : Nat
  deriving DecidableEq

/-- The multi-fork loop from state (`rem` iterations left, index `i`,
`created_count = created`): on fork failure print and `break`; on
success (parent branch) `children[created_count] = pid; created_count++`. -/
def forkLoop (forkOk : Nat → Bool) : Nat → Nat → Nat → ForkRes
  | 0, _, created => ⟨[], [], created⟩
  | rem + 1, i, created =>
    if forkOk i then
      let r := forkLoop forkOk rem (i + 1) (created + 1)
      ⟨true :: r.attempts, created :: r.writes, r.created⟩
    else ⟨[false], [], created⟩

/-- The whole multi-fork loop: 50 iterations from `i = 0`,
`created_count = 0`. -/
def forkRun (forkOk : Nat → Bool) : ForkRes := forkLoop forkOk 50 0 0

/-! ## syscalls.c

Source: `src/test_programs/syscalls.c`.  Each operation's success is an
oracle boolean; stdout is modelled as structured events: one `note` per
informational `printf`, `attempt o` at each call site of operation `o`,
`blocked o` for each `✓ ...blocked...` line and `warn o` for each
`⚠ ...successful/allowed...` line about `o`, and `allowedLine`/`failLine`
for the `✓ access() allowed` / `✗ access() failed` pair.
-/

/-- The operations syscalls.c attempts beyond plain informational
getters. -/
inductive Op
  | access
  | chmod
  | fork
  | exec
  | system
  deriving DecidableEq

/-- Stdout events of syscalls.c. -/
inductive SEv
  | note
  | attempt (o : Op)
  | blocked (o : Op)
  | warn (o : Op)
  | allowedLine (o : Op)
  | failLine (o : Op)
  deriving DecidableEq

/-- `main` of syscalls.c: header and id prints; `access(".")`;
`chmod(".", 0755)`; a basic `fork()` whose child and parent each print a
`⚠ fork() successful` line (blocked line on failure); a second `fork()`
helping the `execl` test — if it succeeds the child attempts `execl`
(printing `✓ execl() blocked` and exiting 1 on failure) and the parent
prints `⚠ execl() successful` or `✓ execl() blocked or failed` from the
child's exit status, and if it fails neither branch runs; finally
`system(...)`; `return 0;`. -/
def syscalls_main (accessOk chmodOk fork1Ok fork2Ok execOk systemOk : Bool) :
    List SEv × Nat :=
  ([SEv.note, SEv.note, SEv.note, SEv.note, SEv.note]
    ++ [SEv.attempt .access]
    ++ (if accessOk then [SEv.allowedLine .access] else [SEv.failLine .access])
    ++ [SEv.attempt .chmod]
    ++ (if chmodOk then [SEv.warn .chmod] else [SEv.blocked .chmod])
    ++ [SEv.attempt .fork]
    ++ (if fork1Ok then [SEv.warn .fork, SEv.warn .fork] else [SEv.blocked .fork])
    ++ [SEv.attempt .fork]
    ++ (if fork2Ok then
          [SEv.attempt .exec]
            ++ (if execOk then [SEv.warn .exec]
                else [SEv.blocked .exec, SEv.blocked .exec])
        else [])
    ++ [SEv.attempt .system]
    ++ (if systemOk then [SEv.warn .system] else [SEv.blocked .system]),
   0)

/-! ## network.c

Source: `src/test_programs/network.c`.  Socket creation and `connect`
success are oracles keyed by the target index.
-/

/-- A connection target (`ip`, `port`) from network.c's `test_targets`. -/
structure NTarget where
  ip : String
  port : Nat
  deriving DecidableEq

/-- `test_targets`: Google DNS, local SSH, local HTTP. -/
def net_targets : List NTarget :=
  [⟨"8.8.8.8", 53⟩, ⟨"127.0.0.1", 22⟩, ⟨"127.0.0.1", 80⟩]

/-- Stdout events of network.c. -/
inductive NEv
  | sockCreated
  | sockCreateFailed
  | bindOkLine
  | bindFailLine
  | connWarn (t : NTarget)
  | connBlocked (t : NTarget)
  deriving DecidableEq

/-- Result of network.c's `main`: stdout events, the targets for which a
`connect` was attempted, and the exit status. -/
structure NetRes where
  events : List NEv
  connAttempts : List NTarget
  exit : Nat
  deriving DecidableEq

/-- The `for (int i = 0; i < num_targets; i++)` loop: create a socket
(`continue` silently on failure), `connect`, print `⚠ Connected` or
`✓ Cannot connect`, `close`. -/
def netLoop (sockOk connOk : Nat → Bool) : Nat → List NTarget → List NEv × List NTarget
  | _, [] => ([], [])
  | i, t :: rest =>
    let r := netLoop sockOk connOk (i + 1) rest
    if sockOk i then
      ((if connOk i then NEv.connWarn t else NEv.connBlocked t) :: r.1, t :: r.2)
    else (r.1, r.2)

/-- `main` of network.c: create the test socket (`return 1` on failure),
print the bind result, close, then the target loop, then `return 0`. -/
def network_main (sock0 bindOk : Bool) (sockOk connOk : Nat → Bool) : NetRes :=
  if sock0 then
    let r := netLoop sockOk connOk 0 net_targets
    ⟨[NEv.sockCreated, if bindOk then NEv.bindOkLine else NEv.bindFailLine] ++ r.1,
     r.2, 0⟩
  else ⟨[NEv.sockCreateFailed], [], 1⟩

/-- The targets whose status lines (`⚠ Connected` / `✓ Cannot connect`)
appear in an event list, in order, paired with whether the connect
succeeded. -/
def statusLines (evs : List NEv) : List (NTarget × Bool) :=
  evs.filterMap (fun e =>
    match e with
    | NEv.connWarn t => some (t, true)
    | NEv.connBlocked t => some (t, false)
    | _ => none)

/-! ## file_io.c

Source: `src/rustbox/src/test_programs/file_io.c`.  `fopen` success is an
oracle: `openW` for creating `test.txt`, `reopenOk`/`fgetsOk` for the
read-back, and `openR` keyed by path for the sensitive-path loop.
-/

/-- `const char *sensitive[] = {"/etc/passwd", "/proc/version", "/root"};` -/
def sensitive_paths : List String := ["/etc/passwd", "/proc/version", "/root"]

/-- Stdout events of file_io.c. -/
inductive FEv
  | createdLine
  | createFailedLine
  | readBackLine
  | cleanupLine
  | warnAccess (p : String)
  | cannotAccess (p : String)
  deriving DecidableEq

/-- The sensitive-path loop: for each path, `fopen(p, "r")`; print
`⚠ WARNING: Can access p` (and close) on success, `✓ Cannot access p`
on failure. -/
def sensLoop (openR : String → Bool) : List String → List FEv
  | [] => []
  | p :: rest =>
    (if openR p then FEv.warnAccess p else FEv.cannotAccess p) :: sensLoop openR rest

/-- `main` of file_io.c: create/write/read-back/unlink `test.txt` (with a
`✗ Failed to create` line when the create fails), then the
sensitive-path loop, then `return 0;`. -/
def fileProbeMain (openW reopenOk fgetsOk : Bool) (openR : String → Bool) :
    List FEv × Nat :=
  ((if openW then
      [FEv.createdLine]
        ++ (if reopenOk && fgetsOk then [FEv.readBackLine] else [])
        ++ [FEv.cleanupLine]
    else [FEv.createFailedLine])
    ++ sensLoop openR sensitive_paths,
   0)

/-- The access-result lines (`⚠ WARNING: Can access` / `✓ Cannot access`)
in an event list, in order, paired with whether the open succeeded. -/
def accessLines (evs : List FEv) : List (String × Bool) :=
  evs.filterMap (fun e =>
    match e with
    | FEv.warnAccess p => some (p, true)
    | FEv.cannotAccess p => some (p, false)
    | _ => none)

/-! ## Lemmas about timeout.c -/

theorem ilBody_inl (time : Nat → Int) (n : Nat) (s : ILSt) :
    ∃ s2, ilBody time n s = Sum.inl s2 := by
  unfold ilBody
  split <;> exact ⟨_, rfl⟩

theorem ilRun_inl (time : Nat → Int) :
    ∀ (f n : Nat) (s : ILSt), ∃ s2, ilRun time f n s = Sum.inl s2 := by
  intro f
  induction f with
  | zero => exact fun n s => ⟨s, rfl⟩
  | succ f ih =>
    intro n s
    obtain ⟨s2, h⟩ := ilBody_inl time n s
    simpa [ilRun, h] using ih (n + 1) s2

theorem foldl_append_ones (l : List Nat) :
    ∀ init : List Nat,
      l.foldl (fun acc _ => acc ++ [1]) init = init ++ List.replicate l.length 1 := by
  induction l with
  | nil => simp
  | cons x xs ih =>
    intro init
    simp [List.foldl_cons, ih, List.replicate_succ]

theorem test_timeouts_sleeps_eq :
    test_timeouts_sleeps = [2, 5] ++ List.replicate 30 1 := by
  simp [test_timeouts_sleeps, foldl_append_ones]

/-- C2: with first argument `"infinite"`, `main` runs `infinite_loop_test`,
whose `while (1)` loop is still running after any number of iterations
(no return is reachable); without it, `main` runs `test_timeouts`, which
performs exactly the sleeps 2 s, 5 s, then 30 one-second sleeps, and
returns 0. -/
theorem timeout_c2 (args : List String) (time : Nat → Int) (fuel : Nat) :
    (timeout_infinite_mode args = true → timeout_main args time fuel = none) ∧
    (timeout_infinite_mode args = false →
      timeout_main args time fuel = some ([2, 5] ++ List.replicate 30 1, 0)) := by
  constructor
  · intro h
    obtain ⟨s2, hs⟩ := ilRun_inl time fuel 0 ⟨0, time 0, 0⟩
    simp [timeout_main, h, hs]
  · intro h
    simp [timeout_main, h, test_timeouts_sleeps_eq]

theorem timeout_c2_witness :
    timeout_main ["infinite"] (fun _ => 0) 1000 = none ∧
    timeout_main [] (fun _ => 0) 7 = some ([2, 5] ++ List.replicate 30 1, 0) :=
  ⟨(timeout_c2 ["infinite"] (fun _ => 0) 1000).1 (by decide),
   (timeout_c2 [] (fun _ => 0) 7).2 (by decide)⟩

/-! ## Lemmas about fork.c -/

theorem forkLoop_spec (forkOk : Nat → Bool) :
    ∀ (rem i created : Nat),
      (forkLoop forkOk rem i created).created =
        created + (forkLoop forkOk rem i created).attempts.count true ∧
      (forkLoop forkOk rem i created).attempts.length ≤ rem ∧
      (∃ k, (forkLoop forkOk rem i created).attempts = List.replicate k true ∨
        (forkLoop forkOk rem i created).attempts = List.replicate k true ++ [false]) ∧
      (forkLoop forkOk rem i created).writes =
        List.range' created ((forkLoop forkOk rem i created).attempts.count true) := by
  intro rem
  induction rem with
  | zero => intro i created; simp [forkLoop]
  | succ rem ih =>
    intro i created
    by_cases h : forkOk i = true
    · obtain ⟨ih1, ih2, ih3, ih4⟩ := ih (i + 1) (created + 1)
      have hstep : forkLoop forkOk (rem + 1) i created =
          ⟨true :: (forkLoop forkOk rem (i + 1) (created + 1)).attempts,
           created :: (forkLoop forkOk rem (i + 1) (created + 1)).writes,
           (forkLoop forkOk rem (i + 1) (created + 1)).created⟩ := by
        simp only [forkLoop]
        rw [if_pos h]
      rw [hstep]
      dsimp only
      refine ⟨?_, ?_, ?_, ?_⟩
      · simp only [List.count_cons_self]
        omega
      · simp only [List.length_cons]
        omega
      · obtain ⟨k, hk⟩ := ih3
        rcases hk with h3 | h3
        · exact ⟨k + 1,
            Or.inl (by rw [List.replicate_succ]; exact congrArg (List.cons true) h3)⟩
        · exact ⟨k + 1,
            Or.inr (by rw [List.replicate_succ, List.cons_append]
                       exact congrArg (List.cons true) h3)⟩
      · simp only [List.count_cons_self]
        rw [List.range'_succ]
        exact congrArg (List.cons created) ih4
    · simp only [Bool.not_eq_true] at h
      have hstep : forkLoop forkOk (rem + 1) i created = ⟨[false], [], created⟩ := by
        simp only [forkLoop]
        rw [if_neg (by simp [h])]
      rw [hstep]
      exact ⟨by simp, by simp, ⟨0, Or.inr (by simp)⟩, by simp [List.range']⟩

/-- C4: in fork.c's multi-fork loop, at most 50 fork attempts are made, the
loop exits at the first failed fork (all attempts before the last
succeed), `created_count` equals the number of successful forks and never
exceeds 50, and every write `children[created_count]` uses an index `< 50`. -/
theorem fork_c4 (forkOk : Nat → Bool) :
    (forkRun forkOk).attempts.length ≤ 50 ∧
    (forkRun forkOk).created = (forkRun forkOk).attempts.count true ∧
    ((forkRun forkOk).attempts =
        List.replicate ((forkRun forkOk).created) true ∨
      (forkRun forkOk).attempts =
        List.replicate ((forkRun forkOk).created) true ++ [false]) ∧
    (forkRun forkOk).created ≤ 50 ∧
    (forkRun forkOk).writes = List.range ((forkRun forkOk).created) ∧
    (∀ w ∈ (forkRun forkOk).writes, w < 50) := by
  obtain ⟨h1, h2, h3, h4⟩ := forkLoop_spec forkOk 50 0 0
  have hcreated : (forkRun forkOk).created = (forkRun forkOk).attempts.count true := by
    simpa [forkRun] using h1
  have hcount : (forkRun forkOk).attempts.count true ≤ 50 :=
    le_trans (List.count_le_length _ _) h2
  have hshape : (forkRun forkOk).attempts = List.replicate ((forkRun forkOk).created) true ∨
      (forkRun forkOk).attempts =
        List.replicate ((forkRun forkOk).created) true ++ [false] := by
    obtain ⟨k, hk⟩ := h3
    rcases hk with hk | hk
    · left
      have hc : (forkRun forkOk).attempts.count true = k := by
        rw [show (forkRun forkOk).attempts = _ from hk, List.count_replicate_self]
      rw [hcreated, hc]
      exact hk
    · right
      have hc : (forkRun forkOk).attempts.count true = k := by
        rw [show (forkRun forkOk).attempts = _ from hk]
        simp [List.count_append, List.count_replicate_self]
      rw [hcreated, hc]
      exact hk
  have hwrites : (forkRun forkOk).writes = List.range ((forkRun forkOk).created) := by
    rw [hcreated, List.range_eq_range']
    exact h4
  refine ⟨h2, hcreated, hshape, by omega, hwrites, ?_⟩
  intro w hw
  rw [hwrites] at hw
  have := List.mem_range.mp hw
  omega

/-! ## Lemmas about memory.c -/

theorem memLoop_spec (alloc : Nat → Bool) :
    ∀ (rem i total : Nat), total ≤ 500 * MB →
      (∀ j < (memLoop alloc rem i total).length,
        (memLoop alloc rem i total).get? j = some (total + chunk_size * (j + 1))) ∧
      (memLoop alloc rem i total).length ≤ rem ∧
      (∀ x ∈ memLoop alloc rem i total, x ≤ 505 * MB) ∧
      (∀ k < (memLoop alloc rem i total).length,
        alloc (i + k) = true ∧ total + chunk_size * k ≤ 500 * MB) ∧
      ((memLoop alloc rem i total).length = rem ∨
        alloc (i + (memLoop alloc rem i total).length) = false ∨
        500 * MB < total + chunk_size * (memLoop alloc rem i total).length) := by
  intro rem
  induction rem with
  | zero => intro i total htot; simp [memLoop]
  | succ rem ih =>
    intro i total htot
    by_cases h : alloc i = true
    · by_cases hcap : 500 * MB < total + chunk_size
      · have hstep : memLoop alloc (rem + 1) i total = [total + chunk_size] := by
          simp only [memLoop]
          rw [if_pos h, if_pos hcap]
        rw [hstep]
        refine ⟨?_, by simp, ?_, ?_, ?_⟩
        · intro j hj
          simp only [List.length_singleton, Nat.lt_one_iff] at hj
          subst hj
          simp [Nat.mul_one]
        · intro x hx
          simp only [List.mem_singleton] at hx
          subst hx
          simp only [chunk_size, MB] at htot ⊢
          omega
        · intro k hk
          simp only [List.length_singleton, Nat.lt_one_iff] at hk
          subst hk
          simpa using ⟨h, htot⟩
        · right; right
          simpa using hcap
      · push_neg at hcap
        obtain ⟨ih1, ih2, ih3, ih4, ih5⟩ := ih (i + 1) (total + chunk_size) hcap
        have hstep : memLoop alloc (rem + 1) i total =
            (total + chunk_size) :: memLoop alloc rem (i + 1) (total + chunk_size) := by
          simp only [memLoop]
          rw [if_pos h, if_neg (by omega)]
        rw [hstep]
        have hshift : ∀ j : Nat, total + chunk_size * (j + 1 + 1) =
            (total + chunk_size) + chunk_size * (j + 1) := by
          intro j
          rw [Nat.mul_succ (chunk_size) (j + 1)]
          omega
        refine ⟨?_, ?_, ?_, ?_, ?_⟩
        · intro j hj
          match j with
          | 0 => simp [Nat.mul_one]
          | j + 1 =>
            simp only [List.length_cons, Nat.add_lt_add_iff_right] at hj
            rw [List.get?_cons_succ, hshift j]
            exact ih1 j hj
        · simp only [List.length_cons]
          omega
        · intro x hx
          rcases List.mem_cons.mp hx with hx | hx
          · subst hx
            simp only [chunk_size, MB] at hcap ⊢
            omega
          · exact ih3 x hx
        · intro k hk
          match k with
          | 0 => simpa using ⟨h, htot⟩
          | k + 1 =>
            simp only [List.length_cons, Nat.add_lt_add_iff_right] at hk
            obtain ⟨ha, hb⟩ := ih4 k hk
            refine ⟨?_, ?_⟩
            · rw [show i + (k + 1) = i + 1 + k by omega]
              exact ha
            · have hms : chunk_size * (k + 1) = chunk_size * k + chunk_size := by
                rw [Nat.mul_add, Nat.mul_one]
              omega
        · rcases ih5 with h5 | h5 | h5
          · left
            simp [List.length_cons, h5]
          · right; left
            rw [List.length_cons, show i + ((memLoop alloc rem (i + 1)
              (total + chunk_size)).length + 1) = i + 1 + (memLoop alloc rem (i + 1)
              (total + chunk_size)).length by omega]
            exact h5
          · right; right
            rw [List.length_cons]
            have hms : chunk_size * ((memLoop alloc rem (i + 1)
                (total + chunk_size)).length + 1) = chunk_size * (memLoop alloc rem (i + 1)
                (total + chunk_size)).length + chunk_size := by
              rw [Nat.mul_add, Nat.mul_one]
            omega
    · simp only [Bool.not_eq_true] at h
      have hstep : memLoop alloc (rem + 1) i total = [] := by
        simp only [memLoop]
        rw [if_neg (by simp [h])]
      rw [hstep]
      simp [h]

/-- C3: memory.c's progressive-allocation loop adds exactly
`chunk_size = 5 * 1024 * 1024` bytes to `total_allocated` per successful
chunk (the total after the `k`-th chunk is `(k + 1) * 5 MB`), performs at
most 200 iterations, keeps `total_allocated ≤ 505 MB` at every point, every
performed iteration had a successful malloc entered with a total still
`≤ 500 MB`, and the loop ends only by running out of its 200 iterations, by
the first `NULL` malloc, or by the total first exceeding 500 MB. -/
theorem memory_c3 (alloc : Nat → Bool) :
    chunk_size = 5 * (1024 * 1024) ∧
    (∀ j < (memRun alloc).length,
      (memRun alloc).get? j = some (chunk_size * (j + 1))) ∧
    (memRun alloc).length ≤ 200 ∧
    (∀ x ∈ memRun alloc, x ≤ 505 * MB) ∧
    (∀ k < (memRun alloc).length, alloc k = true ∧ chunk_size * k ≤ 500 * MB) ∧
    ((memRun alloc).length = 200 ∨ alloc ((memRun alloc).length) = false ∨
      500 * MB < chunk_size * ((memRun alloc).length)) := by
  obtain ⟨h1, h2, h3, h4, h5⟩ := memLoop_spec alloc 200 0 0 (by simp)
  refine ⟨rfl, ?_, h2, h3, ?_, ?_⟩
  · intro j hj
    simpa using h1 j hj
  · intro k hk
    simpa using h4 k hk
  · simpa using h5

/-! ## Lemmas about the memory-limit-exceeded fixtures -/

theorem mle1Run_caught (alloc : Int → Bool) :
    ∀ (f : Nat) (size : Int) (out : List String) (code : Nat),
      mle1Run alloc f size = some (out, code, true) →
      code = 0 ∧ out = [memFailMsg] := by
  intro f
  induction f with
  | zero => intro size out code h; simp [mle1Run] at h
  | succ f ih =>
    intro size out code h
    by_cases ha : alloc size = true
    · simp only [mle1Run] at h
      rw [if_pos ha] at h
      by_cases hs : wrap32 (2 * size) ≤ 0
      · rw [if_pos hs] at h
        simp at h
      · rw [if_neg hs] at h
        exact ih _ _ _ h
    · simp only [Bool.not_eq_true] at ha
      simp only [mle1Run] at h
      rw [if_neg (by simp [ha])] at h
      simp only [Option.some.injEq, Prod.mk.injEq] at h
      exact ⟨h.2.1.symm, h.1.symm⟩

theorem mle2Run_done (alloc : Nat → Bool) :
    ∀ (f size : Nat) (out : List String) (code : Nat) (b : Bool),
      mle2Run alloc f size = some (out, code, b) →
      code = 0 ∧ b = true ∧
        ∃ s : Nat, out = ["Memory allocation failed at size = " ++ toString s] := by
  intro f
  induction f with
  | zero => intro size out code b h; simp [mle2Run] at h
  | succ f ih =>
    intro size out code b h
    by_cases ha : alloc size = true
    · simp only [mle2Run] at h
      rw [if_pos ha] at h
      exact ih _ _ _ _ h
    · simp only [Bool.not_eq_true] at ha
      simp only [mle2Run] at h
      rw [if_neg (by simp [ha])] at h
      simp only [Option.some.injEq, Prod.mk.injEq] at h
      exact ⟨h.2.1.symm, h.2.2.symm, size, h.1.symm⟩

theorem memFailMsg_split (s : Nat) :
    "Memory allocation failed at size = " ++ toString s =
      memFailMsg ++ (" at size = " ++ toString s) := by
  rw [show ("Memory allocation failed at size = " : String) =
      memFailMsg ++ " at size = " from by decide, String.append_assoc]

/-- C6: in each memory-limit-exceeded fixture, whenever a vector allocation
throws `bad_alloc` (the run result carries `true` as its caught-bad-alloc
flag), the program catches it, its stdout contains a line starting with
`"Memory allocation failed"`, and the exit status is 0 (for the second
fixture every completed run is of this kind). -/
theorem mle_c6 :
    (∀ (alloc : Int → Bool) (f : Nat) (out : List String) (code : Nat),
      mle1Run alloc f 1 = some (out, code, true) →
      code = 0 ∧ ∃ l ∈ out, ∃ post, l = memFailMsg ++ post) ∧
    (∀ (alloc : Nat → Bool) (f : Nat) (out : List String) (code : Nat) (b : Bool),
      mle2Run alloc f 1 = some (out, code, b) →
      code = 0 ∧ b = true ∧ ∃ l ∈ out, ∃ post, l = memFailMsg ++ post) := by
  constructor
  · intro alloc f out code h
    obtain ⟨hc, ho⟩ := mle1Run_caught alloc f 1 out code h
    subst ho
    exact ⟨hc, memFailMsg, List.mem_singleton_self _, "", by decide⟩
  · intro alloc f out code b h
    obtain ⟨hc, hb, s, ho⟩ := mle2Run_done alloc f 1 out code b h
    subst ho
    exact ⟨hc, hb, _, List.mem_singleton_self _, " at size = " ++ toString s,
      memFailMsg_split s⟩

theorem mle_c6_witness :
    (0 = 0 ∧ ∃ l ∈ [memFailMsg], ∃ post, l = memFailMsg ++ post) ∧
    (0 = 0 ∧ true = true ∧
      ∃ l ∈ ["Memory allocation failed at size = 4"], ∃ post, l = memFailMsg ++ post) :=
  ⟨mle_c6.1 (fun s => decide (s < 4)) 10 [memFailMsg] 0 (by decide),
   mle_c6.2 (fun s => decide (s < 4)) 10 ["Memory allocation failed at size = 4"] 0 true
     (by decide)⟩

/-! ## Theorems about syscalls.c -/

/-- C5 counterexample: `fork()` is an operation outside
`{chmod, exec*, system}` that syscalls.c also attempts, printing a
blocked line for it when it fails (concretely: with every operation
blocked, the trace contains a fork attempt and a fork blocked line). -/
theorem syscalls_c5_counterexample :
    SEv.attempt Op.fork ∈ (syscalls_main false false false false false false).1 ∧
    SEv.blocked Op.fork ∈ (syscalls_main false false false false false false).1 ∧
    Op.fork ∉ [Op.chmod, Op.exec, Op.system] := by
  decide

/-- C5 amended: the dangerous-operation set syscalls.c exercises is
`{chmod, fork, exec*, system}` (plus a benign `access()` check): `chmod`
and `system` each get exactly one attempt, with a blocked line exactly on
failure and a warning line exactly on success; `fork` is attempted twice
(the basic fork test, which prints warning/blocked lines, and the exec
helper); `execl` is attempted exactly when the helper fork succeeds,
again with warning on success and blocked line(s) on failure; the program
always exits 0. -/
theorem syscalls_c5_amended :
    ∀ accessOk chmodOk fork1Ok fork2Ok execOk systemOk : Bool,
      ((syscalls_main accessOk chmodOk fork1Ok fork2Ok execOk systemOk).1.count
          (SEv.attempt Op.chmod) = 1 ∧
        (SEv.warn Op.chmod ∈
            (syscalls_main accessOk chmodOk fork1Ok fork2Ok execOk systemOk).1 ↔
          chmodOk = true) ∧
        (SEv.blocked Op.chmod ∈
            (syscalls_main accessOk chmodOk fork1Ok fork2Ok execOk systemOk).1 ↔
          chmodOk = false)) ∧
      ((syscalls_main accessOk chmodOk fork1Ok fork2Ok execOk systemOk).1.count
          (SEv.attempt Op.system) = 1 ∧
        (SEv.warn Op.system ∈
            (syscalls_main accessOk chmodOk fork1Ok fork2Ok execOk systemOk).1 ↔
          systemOk = true) ∧
        (SEv.blocked Op.system ∈
            (syscalls_main accessOk chmodOk fork1Ok fork2Ok execOk systemOk).1 ↔
          systemOk = false)) ∧
      ((syscalls_main accessOk chmodOk fork1Ok fork2Ok execOk systemOk).1.count
          (SEv.attempt Op.fork) = 2 ∧
        (SEv.warn Op.fork ∈
            (syscalls_main accessOk chmodOk fork1Ok fork2Ok execOk systemOk).1 ↔
          fork1Ok = true) ∧
        (SEv.blocked Op.fork ∈
            (syscalls_main accessOk chmodOk fork1Ok fork2Ok execOk systemOk).1 ↔
          fork1Ok = false)) ∧
      ((SEv.attempt Op.exec ∈
            (syscalls_main accessOk chmodOk fork1Ok fork2Ok execOk systemOk).1 ↔
          fork2Ok = true) ∧
        (fork2Ok = true →
          ((SEv.warn Op.exec ∈
              (syscalls_main accessOk chmodOk fork1Ok fork2Ok execOk systemOk).1 ↔
            execOk = true) ∧
          (SEv.blocked Op.exec ∈
              (syscalls_main accessOk chmodOk fork1Ok fork2Ok execOk systemOk).1 ↔
            execOk = false)))) ∧
      SEv.attempt Op.access ∈
        (syscalls_main accessOk chmodOk fork1Ok fork2Ok execOk systemOk).1 ∧
      (syscalls_main accessOk chmodOk fork1Ok fork2Ok execOk systemOk).2 = 0 := by
  decide

theorem syscalls_c5_witness :
    ((syscalls_main false false false false false false).1.count
        (SEv.attempt Op.chmod) = 1 ∧
      (SEv.warn Op.chmod ∈ (syscalls_main false false false false false false).1 ↔
        false = true) ∧
      (SEv.blocked Op.chmod ∈ (syscalls_main false false false false false false).1 ↔
        false = false)) ∧
    ((syscalls_main false false false false false false).1.count
        (SEv.attempt Op.system) = 1 ∧
      (SEv.warn Op.system ∈ (syscalls_main false false false false false false).1 ↔
        false = true) ∧
      (SEv.blocked Op.system ∈ (syscalls_main false false false false false false).1 ↔
        false = false)) ∧
    ((syscalls_main false false false false false false).1.count
        (SEv.attempt Op.fork) = 2 ∧
      (SEv.warn Op.fork ∈ (syscalls_main false false false false false false).1 ↔
        false = true) ∧
      (SEv.blocked Op.fork ∈ (syscalls_main false false false false false false).1 ↔
        false = false)) ∧
    ((SEv.attempt Op.exec ∈ (syscalls_main false false false false false false).1 ↔
        false = true) ∧
      (false = true →
        ((SEv.warn Op.exec ∈ (syscalls_main false false false false false false).1 ↔
          false = true) ∧
        (SEv.blocked Op.exec ∈ (syscalls_main false false false false false false).1 ↔
          false = false)))) ∧
    SEv.attempt Op.access ∈ (syscalls_main false false false false false false).1 ∧
    (syscalls_main false false false false false false).2 = 0 :=
  syscalls_c5_amended false false false false false false

/-! ## Theorems about network.c -/

/-- C7: network.c attempts TCP connections to exactly the three targets
`8.8.8.8:53`, `127.0.0.1:22`, `127.0.0.1:80` (each attempted exactly when
its per-target socket could be created, all three when every socket is
created), prints exactly one status line per attempted target — a warning
line when `connect` succeeds, a cannot-connect line when it fails — and,
provided the initial test socket was created, exits 0 regardless of the
outcomes. -/
theorem network_c7 (s0 bindOk : Bool) (sockOk connOk : Nat → Bool)
    (h : s0 = true) :
    (network_main s0 bindOk sockOk connOk).exit = 0 ∧
    (network_main s0 bindOk sockOk connOk).connAttempts =
      ((if sockOk 0 then [(⟨"8.8.8.8", 53⟩ : NTarget)] else []) ++
        (if sockOk 1 then [(⟨"127.0.0.1", 22⟩ : NTarget)] else []) ++
        (if sockOk 2 then [(⟨"127.0.0.1", 80⟩ : NTarget)] else [])) ∧
    statusLines (network_main s0 bindOk sockOk connOk).events =
      ((if sockOk 0 then [((⟨"8.8.8.8", 53⟩ : NTarget), connOk 0)] else []) ++
        (if sockOk 1 then [((⟨"127.0.0.1", 22⟩ : NTarget), connOk 1)] else []) ++
        (if sockOk 2 then [((⟨"127.0.0.1", 80⟩ : NTarget), connOk 2)] else [])) ∧
    (∀ t ∈ (network_main s0 bindOk sockOk connOk).connAttempts, t ∈ net_targets) ∧
    ((∀ k, sockOk k = true) →
      (network_main s0 bindOk sockOk connOk).connAttempts = net_targets) := by
  subst h
  refine ⟨by simp [network_main], ?_, ?_, ?_, ?_⟩
  · cases h0 : sockOk 0 <;> cases h1 : sockOk 1 <;> cases h2 : sockOk 2 <;>
      simp [network_main, netLoop, net_targets, h0, h1, h2]
  · cases hb : bindOk <;> cases h0 : sockOk 0 <;> cases h1 : sockOk 1 <;>
      cases h2 : sockOk 2 <;> cases c0 : connOk 0 <;> cases c1 : connOk 1 <;>
      cases c2 : connOk 2 <;>
      simp [network_main, netLoop, net_targets, statusLines, hb, h0, h1, h2, c0, c1, c2]
  · cases h0 : sockOk 0 <;> cases h1 : sockOk 1 <;> cases h2 : sockOk 2 <;>
      simp [network_main, netLoop, net_targets, h0, h1, h2]
  · intro hall
    simp [network_main, netLoop, net_targets, hall 0, hall 1, hall 2]

theorem network_c7_witness :
    (network_main true true (fun _ => true) (fun _ => false)).exit = 0 ∧
    (network_main true true (fun _ => true) (fun _ => false)).connAttempts =
      net_targets :=
  ⟨(network_c7 true true (fun _ => true) (fun _ => false) rfl).1,
   (network_c7 true true (fun _ => true) (fun _ => false) rfl).2.2.2.2 (fun _ => rfl)⟩

/-! ## Theorems about file_io.c -/

/-- C8: file_io.c's sensitive-path loop attempts to open for reading
exactly `/etc/passwd`, `/proc/version`, `/root`, in that order, printing
exactly one line per path — a warning line when the open succeeds, a
cannot-access line when it fails — and `main` returns 0 for every
combination of outcomes, including when creating `test.txt` fails. -/
theorem fileProbe_c8 (openW reopenOk fgetsOk : Bool) (openR : String → Bool) :
    (fileProbeMain openW reopenOk fgetsOk openR).2 = 0 ∧
    accessLines (fileProbeMain openW reopenOk fgetsOk openR).1 =
      [("/etc/passwd", openR "/etc/passwd"), ("/proc/version", openR "/proc/version"),
        ("/root", openR "/root")] := by
  refine ⟨rfl, ?_⟩
  cases hw : openW <;> cases hr : reopenOk <;> cases hf : fgetsOk <;>
    cases h1 : openR "/etc/passwd" <;> cases h2 : openR "/proc/version" <;>
    cases h3 : openR "/root" <;>
    simp [fileProbeMain, sensLoop, sensitive_paths, accessLines, hw, hr, hf, h1, h2, h3]

/-! ## Lemmas about the star-pattern fixtures -/

theorem tokens_nil : tokens [] = [] := by
  simp [tokens]

theorem tokens_ws_cons (c : Char) (hc : isWS c = true) (l : List Char) :
    tokens (c :: l) = tokens l := by
  simp [tokens, List.splitOnP_cons, hc]

theorem tokens_run_cons (xs : List Char) (hxs : ∀ x ∈ xs, isWS x = false)
    (hne : xs ≠ []) (c : Char) (hc : isWS c = true) (rest : List Char) :
    tokens (xs ++ c :: rest) = xs :: tokens rest := by
  unfold tokens
  rw [List.splitOnP_first isWS xs (fun x hx => by simp [hxs x hx]) c hc rest]
  simp [List.filter_cons, hne]

theorem stars_not_ws (k : Nat) : ∀ x ∈ List.replicate k '*', isWS x = false := by
  intro x hx
  rw [List.eq_of_mem_replicate hx]
  decide

theorem tokens_stars_cons (k : Nat) (hk : 0 < k) (c : Char) (hc : isWS c = true)
    (rest : List Char) :
    tokens (List.replicate k '*' ++ c :: rest) =
      List.replicate k '*' :: tokens rest := by
  refine tokens_run_cons _ (stars_not_ws k) ?_ c hc rest
  simp only [ne_eq, List.replicate_eq_nil_iff]
  omega

theorem starGroups_succ (n : Nat) :
    starGroups (n + 1) = starGroups n ++ [List.replicate (2 * n + 1) '*'] := by
  simp [starGroups, List.range_succ]

theorem tokens_loopA (n : Nat) :
    ∀ (c : Char), isWS c = true → ∀ rest : List Char,
      tokens (loopA n ++ c :: rest) = starGroups n ++ tokens rest := by
  induction n with
  | zero =>
    intro c hc rest
    simp [loopA, starGroups, tokens_ws_cons c hc]
  | succ n ih =>
    intro c hc rest
    match n with
    | 0 =>
      have hrow : loopA 1 = List.replicate 1 '*' := by
        simp [loopA, rowA]
      rw [hrow, tokens_stars_cons 1 (by omega) c hc rest]
      simp [starGroups, List.range_succ]
    | m + 1 =>
      have hrow : rowA (m + 2) = ' ' :: List.replicate (2 * (m + 1) + 1) '*' := by
        simp only [rowA]
        rw [if_pos (by omega)]
        have : 2 * (m + 2) - 1 = 2 * (m + 1) + 1 := by omega
        rw [this]
        rfl
      have hsplit : loopA (m + 2) ++ c :: rest =
          loopA (m + 1) ++ ' ' :: (List.replicate (2 * (m + 1) + 1) '*' ++ c :: rest) := by
        show loopA (m + 1) ++ rowA (m + 2) ++ c :: rest = _
        rw [hrow]
        simp [List.append_assoc]
      rw [hsplit, ih ' ' (by decide) _,
        tokens_stars_cons (2 * (m + 1) + 1) (by omega) c hc rest,
        starGroups_succ (m + 1), List.append_assoc]
      rfl

theorem tokens_loopB (n : Nat) :
    ∀ rest : List Char,
      tokens (loopB n ++ rest) = starGroups n ++ tokens rest := by
  induction n with
  | zero =>
    intro rest
    simp [loopB, starGroups]
  | succ n ih =>
    intro rest
    have hrow : rowB (n + 1) = List.replicate (2 * n + 1) '*' ++ [' '] := by
      simp only [rowB]
      have : 2 * (n + 1) - 1 = 2 * n + 1 := by omega
      rw [this]
    have hsplit : loopB (n + 1) ++ rest =
        loopB n ++ (List.replicate (2 * n + 1) '*' ++ ' ' :: rest) := by
      show loopB n ++ rowB (n + 1) ++ rest = _
      rw [hrow]
      simp [List.append_assoc]
    rw [hsplit, ih _, tokens_stars_cons (2 * n + 1) (by omega) ' ' (by decide) rest,
      starGroups_succ n, List.append_assoc]
    rfl

theorem tokens_print_star_pattern (N : Nat) :
    tokens (print_star_pattern N) = starGroups N := by
  show tokens (loopA N ++ '\n' :: []) = starGroups N
  rw [tokens_loopA N '\n' (by decide) [], tokens_nil, List.append_nil]

theorem tokens_printStarPattern (N : Nat) :
    tokens (printStarPattern N) = starGroups N := by
  show tokens (loopB N ++ ['\n']) = starGroups N
  rw [tokens_loopB N ['\n'], tokens_ws_cons '\n' (by decide) [], tokens_nil,
    List.append_nil]

theorem count_loopA (n : Nat) : (loopA n).count '*' = n * n := by
  induction n with
  | zero => rfl
  | succ n ih =>
    have hcr : (rowA (n + 1)).count '*' = 2 * n + 1 := by
      have h21 : 2 * (n + 1) - 1 = 2 * n + 1 := by omega
      by_cases h : 1 < n + 1
      · simp [rowA, h, List.count_append, h21, List.count_replicate_self]
      · simp [rowA, h, h21, List.count_replicate_self]
    show (loopA n ++ rowA (n + 1)).count '*' = (n + 1) * (n + 1)
    rw [List.count_append, ih, hcr]
    ring

theorem count_loopB (n : Nat) : (loopB n).count '*' = n * n := by
  induction n with
  | zero => rfl
  | succ n ih =>
    have hcr : (rowB (n + 1)).count '*' = 2 * n + 1 := by
      have h21 : 2 * (n + 1) - 1 = 2 * n + 1 := by omega
      simp [rowB, List.count_append, h21, List.count_replicate_self]
    show (loopB n ++ rowB (n + 1)).count '*' = (n + 1) * (n + 1)
    rw [List.count_append, ih, hcr]
    ring

/-- C9: for every `N ≥ 1`, both star fixtures print the same `N` star
groups up to whitespace normalization: the token lists of both outputs
equal the canonical group list, whose `i`-th entry (0-based `i < N`) is
exactly `2 * (i + 1) - 1` stars, for `N * N` stars in total in each
output; both outputs end with a newline. -/
theorem star_c9 (N : Nat) (hN : 1 ≤ N) :
    tokens (print_star_pattern N) = starGroups N ∧
    tokens (printStarPattern N) = starGroups N ∧
    tokens (print_star_pattern N) = tokens (printStarPattern N) ∧
    (starGroups N).length = N ∧
    (∀ i, i < N → (starGroups N).get? i =
      some (List.replicate (2 * (i + 1) - 1) '*')) ∧
    (print_star_pattern N).count '*' = N * N ∧
    (printStarPattern N).count '*' = N * N ∧
    (∃ a, print_star_pattern N = a ++ ['\n']) ∧
    (∃ b, printStarPattern N = b ++ ['\n']) := by
  refine ⟨tokens_print_star_pattern N, tokens_printStarPattern N, ?_, ?_, ?_,
    ?_, ?_, ⟨loopA N, rfl⟩, ⟨loopB N, rfl⟩⟩
  · rw [tokens_print_star_pattern N, tokens_printStarPattern N]
  · simp [starGroups]
  · intro i hi
    have h21 : 2 * (i + 1) - 1 = 2 * i + 1 := by omega
    simp [starGroups, List.get?_eq_getElem?, List.getElem?_map,
      List.getElem?_range hi, h21]
  · show (loopA N ++ ['\n']).count '*' = N * N
    rw [List.count_append, count_loopA]
    simp
  · show (loopB N ++ ['\n']).count '*' = N * N
    rw [List.count_append, count_loopB]
    simp

theorem star_c9_witness :
    tokens (print_star_pattern 3) = starGroups 3 ∧
    tokens (printStarPattern 3) = starGroups 3 ∧
    tokens (print_star_pattern 3) = tokens (printStarPattern 3) ∧
    (starGroups 3).length = 3 ∧
    (∀ i, i < 3 → (starGroups 3).get? i =
      some (List.replicate (2 * (i + 1) - 1) '*')) ∧
    (print_star_pattern 3).count '*' = 3 * 3 ∧
    (printStarPattern 3).count '*' = 3 * 3 ∧
    (∃ a, print_star_pattern 3 = a ++ ['\n']) ∧
    (∃ b, printStarPattern 3 = b ++ ['\n']) :=
  star_c9 3 (by decide)

/-! ## Lemmas about the LIS fixtures: maxFold and strictIncr -/

theorem maxFold_nil : maxFold [] = 0 := rfl

theorem maxFold_cons (a : Nat) (l : List Nat) :
    maxFold (a :: l) = Nat.max a (maxFold l) := rfl

theorem maxFold_append (a b : List Nat) :
    maxFold (a ++ b) = Nat.max (maxFold a) (maxFold b) := by
  induction a with
  | nil => simp [maxFold]
  | cons x xs ih =>
    rw [List.cons_append, maxFold_cons, ih, maxFold_cons]
    exact (Nat.max_assoc _ _ _).symm

theorem maxFold_map_succ :
    ∀ l : List Nat, l ≠ [] → maxFold (l.map (· + 1)) = maxFold l + 1 := by
  intro l
  induction l with
  | nil => intro h; exact absurd rfl h
  | cons a l ih =>
    intro _
    cases l with
    | nil => simp [maxFold]
    | cons b l' =>
      rw [List.map_cons, maxFold_cons, maxFold_cons, ih (by simp)]
      exact Nat.succ_max_succ _ _

theorem strictIncr_concat (x : Int) : ∀ s : List Int,
    strictIncr (s ++ [x]) = (strictIncr s && lastLt s x)
  | [] => by simp [strictIncr, lastLt]
  | [a] => by simp [strictIncr, lastLt]
  | a :: b :: t => by
    have ih := strictIncr_concat x (b :: t)
    show (decide (a < b) && strictIncr (b :: (t ++ [x]))) =
      ((decide (a < b) && strictIncr (b :: t)) && lastLt (a :: b :: t) x)
    have hl : lastLt (a :: b :: t) x = lastLt (b :: t) x := by
      simp [lastLt, List.getLast?_cons_cons]
    rw [hl, show strictIncr (b :: (t ++ [x])) =
      (strictIncr (b :: t) && lastLt (b :: t) x) from ih, Bool.and_assoc]

/-! ## Lemmas about the LIS fixtures: the specification recurrences -/

theorem endList_ne_nil (p : List Int) (x : Int) :
    (p.sublists.filter (fun s => strictIncr (s ++ [x]))).map List.length ≠ [] := by
  have h : [] ∈ p.sublists.filter (fun s => strictIncr (s ++ [x])) := by
    rw [List.mem_filter]
    exact ⟨List.mem_sublists.mpr (List.nil_sublist p), by simp [strictIncr]⟩
  exact List.ne_nil_of_mem (List.mem_map_of_mem List.length h)

theorem filter_map_snoc (S : List (List Int)) (y : Int) (q : List Int → Bool) :
    (S.map (fun s => s ++ [y])).filter q =
      (S.filter (fun s => q (s ++ [y]))).map (fun s => s ++ [y]) :=
  List.filter_map (fun s => s ++ [y]) S

theorem lengths_map_snoc (F : List (List Int)) (y : Int) :
    ((F.map (fun s => s ++ [y])).map List.length) = (F.map List.length).map (· + 1) := by
  rw [List.map_map, List.map_map]
  refine List.map_congr_left ?_
  intro s _
  simp [List.length_append]

theorem endSpecAux_concat (p : List Int) (y x : Int) :
    endSpecAux (p ++ [y]) x =
      if y < x then Nat.max (endSpecAux p x) (endSpecAux p y + 1)
      else endSpecAux p x := by
  unfold endSpecAux
  rw [List.sublists_concat, List.filter_append, filter_map_snoc, List.map_append,
    lengths_map_snoc, maxFold_append]
  by_cases hyx : y < x
  · rw [if_pos hyx]
    have hq : (fun s : List Int => strictIncr ((s ++ [y]) ++ [x])) =
        (fun s : List Int => strictIncr (s ++ [y])) := by
      funext s
      rw [strictIncr_concat x (s ++ [y])]
      simp [lastLt, List.getLast?_concat, hyx]
    rw [hq, maxFold_map_succ _ (endList_ne_nil p y)]
  · rw [if_neg hyx]
    have hq : (fun s : List Int => strictIncr ((s ++ [y]) ++ [x])) =
        (fun _ : List Int => false) := by
      funext s
      rw [strictIncr_concat x (s ++ [y])]
      simp [lastLt, List.getLast?_concat, hyx]
    rw [hq]
    simp [maxFold]

theorem lisSpec_concat (p : List Int) (x : Int) :
    lisSpec (p ++ [x]) = Nat.max (lisSpec p) (endSpecAux p x + 1) := by
  unfold lisSpec endSpecAux
  rw [List.sublists_concat, List.filter_append, filter_map_snoc, List.map_append,
    lengths_map_snoc, maxFold_append, maxFold_map_succ _ (endList_ne_nil p x)]

/-! ## Lemmas about the LIS fixtures: the DP computes the specification -/

theorem lisInner_concat (x y : Int) (d : Nat) (done : List (Int × Nat)) :
    lisInner x (done ++ [(y, d)]) =
      if y < x then Nat.max (lisInner x done) (d + 1) else lisInner x done := by
  unfold lisInner
  rw [List.foldl_concat]

theorem specPairsAux_snoc (x : Int) :
    ∀ (l pref : List Int),
      specPairsAux pref (l ++ [x]) =
        specPairsAux pref l ++ [(x, endSpec (pref ++ l) x)] := by
  intro l
  induction l with
  | nil => intro pref; simp [specPairsAux]
  | cons a l ih =>
    intro pref
    show (a, endSpec pref a) :: specPairsAux (pref ++ [a]) (l ++ [x]) = _
    rw [ih (pref ++ [a]), List.append_assoc, List.singleton_append]
    rfl

theorem specPairs_snoc (p : List Int) (x : Int) :
    specPairs (p ++ [x]) = specPairs p ++ [(x, endSpec p x)] := by
  have h := specPairsAux_snoc x p []
  simpa [specPairs] using h

theorem lisInner_specPairs (x : Int) (p : List Int) :
    lisInner x (specPairs p) = endSpec p x := by
  induction p using List.reverseRecOn with
  | nil => rfl
  | append_singleton p y ih =>
    rw [specPairs_snoc p y, lisInner_concat x y _ _]
    unfold endSpec
    rw [endSpecAux_concat p y x]
    by_cases h : y < x
    · rw [if_pos h, if_pos h, ih]
      unfold endSpec
      exact Nat.succ_max_succ _ _
    · rw [if_neg h, if_neg h, ih]
      rfl

theorem dpPass_specPairs : ∀ (rest p : List Int),
    dpPass (specPairs p) rest = specPairs (p ++ rest) := by
  intro rest
  induction rest with
  | nil => intro p; simp [dpPass]
  | cons x rest ih =>
    intro p
    show dpPass (specPairs p ++ [(x, lisInner x (specPairs p))]) rest = _
    rw [lisInner_specPairs x p, ← specPairs_snoc p x, ih (p ++ [x]),
      List.append_assoc]
    rfl

theorem lisInner2_eq_lisInner (x : Int) (done : List (Int × Nat)) :
    lisInner2 x done = lisInner x done := by
  unfold lisInner2 lisInner
  have key : ∀ (l : List (Int × Nat)) (d : Nat),
      l.foldl (fun d p =>
        if decide (x > p.1) && decide (d < p.2 + 1) then p.2 + 1 else d) d =
      l.foldl (fun d p => if p.1 < x then Nat.max d (p.2 + 1) else d) d := by
    intro l
    induction l with
    | nil => intro d; rfl
    | cons p l ih =>
      intro d
      rw [List.foldl_cons, List.foldl_cons, ih]
      congr 1
      by_cases h1 : p.1 < x
      · by_cases h2 : d < p.2 + 1
        · simp [h1, h2, Nat.max_eq_right (Nat.le_of_lt h2)]
        · have hle : p.2 + 1 ≤ d := by omega
          simp [h1, h2, Nat.max_eq_left hle]
      · simp [h1, show ¬x > p.1 from h1]
  exact key done 1

theorem dpPass2_eq_dpPass : ∀ (rest : List Int) (done : List (Int × Nat)),
    dpPass2 done rest = dpPass done rest := by
  intro rest
  induction rest with
  | nil => intro done; rfl
  | cons x rest ih =>
    intro done
    show dpPass2 (done ++ [(x, lisInner2 x done)]) rest = _
    rw [lisInner2_eq_lisInner, ih]
    rfl

/-! ## Lemmas about the LIS fixtures: max_element and assembly -/

theorem foldl_max_eq (xs : List Nat) :
    ∀ a : Nat, xs.foldl Nat.max a = Nat.max a (maxFold xs) := by
  induction xs with
  | nil => intro a; simp [maxFold]
  | cons y xs ih =>
    intro a
    rw [List.foldl_cons, ih, maxFold_cons]
    exact Nat.max_assoc _ _ _

theorem maxElement_eq (l : List Nat) (h : l ≠ []) :
    maxElement l = some (maxFold l) := by
  match l with
  | x :: xs =>
    show some (xs.foldl Nat.max x) = some (maxFold (x :: xs))
    rw [foldl_max_eq xs x, maxFold_cons]

theorem specPairsAux_length : ∀ (l pref : List Int),
    (specPairsAux pref l).length = l.length := by
  intro l
  induction l with
  | nil => intro pref; rfl
  | cons a l ih =>
    intro pref
    show (specPairsAux (pref ++ [a]) l).length + 1 = l.length + 1
    rw [ih (pref ++ [a])]

theorem maxFold_specPairs : ∀ p : List Int, p ≠ [] →
    maxFold ((specPairs p).map Prod.snd) = lisSpec p := by
  intro p
  induction p using List.reverseRecOn with
  | nil => intro h; exact absurd rfl h
  | append_singleton p y ih =>
    intro _
    rw [specPairs_snoc p y, List.map_append, maxFold_append, lisSpec_concat p y]
    by_cases hp : p = []
    · subst hp
      simp [specPairs, specPairsAux, maxFold, endSpec, lisSpec, strictIncr]
    · rw [ih hp]
      simp [maxFold, endSpec]

/-- C10: on every non-empty vector the two LIS fixtures compute the same
value, namely the length of the longest strictly increasing subsequence
(`lisSpec`); on the empty vector `longest_increasing_subsequence` returns 0
while `lis` has no defined result (`max_element` on an empty range). -/
theorem lis_c10 :
    (∀ arr : List Int, arr ≠ [] →
      longest_increasing_subsequence arr = lisSpec arr ∧
      lis arr = some (lisSpec arr) ∧
      lis arr = some (longest_increasing_subsequence arr)) ∧
    longest_increasing_subsequence [] = 0 ∧
    lis [] = none := by
  refine ⟨?_, rfl, rfl⟩
  intro arr h
  have hdp : dpPass [] arr = specPairs arr := by
    have hd := dpPass_specPairs arr []
    simpa [specPairs, specPairsAux] using hd
  have hdp2 : dpPass2 [] arr = specPairs arr := by
    rw [dpPass2_eq_dpPass arr []]
    exact hdp
  have hne : (specPairs arr).map Prod.snd ≠ [] := by
    simp only [ne_eq, List.map_eq_nil_iff]
    intro hnil
    have hlen := specPairsAux_length arr []
    rw [show specPairsAux [] arr = specPairs arr from rfl, hnil] at hlen
    exact h (List.length_eq_zero.mp hlen.symm)
  have hmax : maxElement ((specPairs arr).map Prod.snd) = some (lisSpec arr) := by
    rw [maxElement_eq _ hne, maxFold_specPairs arr h]
  have hlong : longest_increasing_subsequence arr = lisSpec arr := by
    unfold longest_increasing_subsequence
    rw [if_neg (by simp [h]), hdp, hmax]
    rfl
  have hlis : lis arr = some (lisSpec arr) := by
    unfold lis
    rw [hdp2, hmax]
  exact ⟨hlong, hlis, by rw [hlis, hlong]⟩

/-- C1 counterexample: the LIS fixture `main` does not print
`"LIS length: 6"` — its single stdout line differs from that string. -/
theorem lis_fixture_c1_counterexample :
    test3_main.1 ≠ ["LIS length: 6"] := by
  decide

/-- C1 amended: the LIS fixture, on its hard-coded array
`{10, 9, 2, 5, 3, 7, 101, 18}`, prints exactly one stdout line
`"LIS length: 4"` and exits with status 0 (4 is indeed the length of the
longest strictly increasing subsequence of that array). -/
theorem lis_fixture_c1_amended :
    test3_main = (["LIS length: 4"], 0) ∧
    longest_increasing_subsequence test3_arr = 4 ∧
    lisSpec test3_arr = 4 := by
  exact ⟨by decide, by decide, by decide⟩

theorem lis_c10_witness :
    longest_increasing_subsequence [10, 9, 2, 5] = lisSpec [10, 9, 2, 5] ∧
    lis [10, 9, 2, 5] = some (lisSpec [10, 9, 2, 5]) ∧
    lis [10, 9, 2, 5] = some (longest_increasing_subsequence [10, 9, 2, 5]) :=
  lis_c10.1 [10, 9, 2, 5] (by decide)

end Rustbox
